import Mathlib

/-!
Verification of the scene-graph core of `src/src/index.ts`.

The TypeScript code is a retained-mode scene graph: an abstract class
`BaseShape` holds local `x, y, width, height`, an ordered `children` array and
an optional `parent` back-link, and the concrete classes `Rectangle`, `Circle`,
`CustomText`, `Scene` and `PalaceContainer` override `draw`, `containsPoint`,
`onClick` and (for `Scene`) `getAbsoluteX`/`getAbsoluteY`.

Embedding choices:
* The mutable object graph is a heap: nodes are identified by a `NodeId` and a
  `Store` maps every id to a `Node` record.  Object identity (JS `===`, used by
  `Array.prototype.indexOf` in `removeChild`) is id equality.
* JS numbers are modelled as `Int`; every coordinate appearing in the program
  and in the claims is an integer.
* Dynamic dispatch is modelled by a `kind` tag on each node; a method that a
  subclass overrides (`containsPoint` for `Circle`, `getAbsoluteX/Y` for
  `Scene`, `draw` per class) branches on the tag exactly as the virtual call
  would.
* The recursions of `getAbsoluteX/Y` (up the parent chain), `handleEvent` and
  `draw` (down the child lists) are not structurally well-founded on an
  arbitrary heap, so they take a fuel argument and return `none` when the fuel
  runs out; on acyclic heaps the result is defined and fuel-independent for all
  sufficiently large fuel (proved below).
* Canvas painting is modelled as an emitted list of `PaintCmd`s; `measureText`
  is an arbitrary parameter `measure : Option Char → Int` (the argument is the
  first character of the text, `none` when the text is empty, mirroring
  `this.text.split('')[0]` which is `undefined` on the empty string).
-/

/-- `interface HandleEvent { type: string; x: number; y: number }`
(src/src/index.ts:5-9). -/
structure HandleEventData where
  type : String
  x : Int
  y : Int
deriving DecidableEq

/-- `class MouseClickEvent implements HandleEvent { type = 'click' }`
(src/src/index.ts:12-15). -/
def MouseClickEvent (x y : Int) : HandleEventData :=
  ⟨"click", x, y⟩

/-- The concrete class of a node: the dynamic-dispatch tag. -/
inductive ShapeKind where
  | rectangle
  | circle
  | customText
  | scene
  | palaceContainer
deriving DecidableEq

/-- Heap addresses standing for JS object identity. -/
abbrev NodeId := Nat

/-- One scene-graph object: the fields of `BaseShape` (src/src/index.ts:40-49)
together with the subclass fields (`strokeColor`, `radius`/`fillColor`,
`text`/`font`/`fillColor`) and the dispatch tag.  Fields a given class does not
declare are simply unused for nodes of that kind. -/
structure Node where
  x : Int
  y : Int
  width : Int
  height : Int
  kind : ShapeKind
  radius : Int
  text : List Char
  font : String
  fillColor : String
  strokeColor : String
  children : List NodeId
  parent : Option NodeId
deriving DecidableEq

/-- The heap. -/
abbrev Store := NodeId → Node

/-- Write one node of the heap. -/
def updateStore (s : Store) (i : NodeId) (nd : Node) : Store :=
  fun j => if j = i then nd else s j

/-- `BaseShape` constructor (src/src/index.ts:44-49): `children = []`,
`parent = null`, explicit `x, y, width, height`; subclass fields zeroed. -/
def BaseShape.init (k : ShapeKind) (x y width height : Int) : Node :=
  ⟨x, y, width, height, k, 0, [], "", "", "", [], none⟩

/-- `new Rectangle(x, y, width, height, strokeColor)` (src/src/index.ts:124-132). -/
def Rectangle.new (x y width height : Int) (strokeColor : String) : Node :=
  { BaseShape.init ShapeKind.rectangle x y width height with
      strokeColor := strokeColor }

/-- `new Circle(x, y, radius, fillColor)` (src/src/index.ts:153-160):
`super(x, y, radius * 2, radius * 2)`. -/
def Circle.new (x y radius : Int) (fillColor : String) : Node :=
  { BaseShape.init ShapeKind.circle x y (radius * 2) (radius * 2) with
      radius := radius, fillColor := fillColor }

/-- `new CustomText(x, y, text, font, fillColor)` (src/src/index.ts:196-204):
`super(x, y, 0, 0)` — width and height start at zero, recomputed on draw. -/
def CustomText.new (x y : Int) (text : List Char) (font fillColor : String) : Node :=
  { BaseShape.init ShapeKind.customText x y 0 0 with
      text := text, font := font, fillColor := fillColor }

/-- The `Scene` node (src/src/index.ts:237-265): `super(0, 0, 0, 0)`, then
`width`/`height` set to the canvas size.  The DOM/canvas binding itself is out
of scope; only the node's geometry and overrides matter here. -/
def Scene.new (width height : Int) : Node :=
  { BaseShape.init ShapeKind.scene 0 0 width height with
      width := width, height := height }

/-- `new PalaceContainer(x, y, width, height, strokeColor)`
(src/src/index.ts:297-305). -/
def PalaceContainer.new (x y width height : Int) (strokeColor : String) : Node :=
  { BaseShape.init ShapeKind.palaceContainer x y width height with
      strokeColor := strokeColor }

/-- `addChild(child)` (src/src/index.ts:55-58):
`this.children.push(child); child.parent = this;`. -/
def addChild (s : Store) (self child : NodeId) : Store :=
  let s1 := updateStore s self
    { s self with children := (s self).children ++ [child] }
  updateStore s1 child { s1 child with parent := some self }

/-- `Array.prototype.indexOf` on the children array: first index whose element
is identical (`===`) to `c`, or `-1` when absent. -/
def jsIndexOf : List NodeId → NodeId → Int
  | [], _ => -1
  | a :: l, c =>
    if a = c then 0
    else
      let r := jsIndexOf l c
      if r = -1 then -1 else r + 1

/-- `removeChild(child)` (src/src/index.ts:61-67): look the child up with
`indexOf`; if found, `splice(index, 1)` it out and clear its parent link;
otherwise do nothing. -/
def removeChild (s : Store) (self child : NodeId) : Store :=
  let index := jsIndexOf (s self).children child
  if index ≠ -1 then
    let s1 := updateStore s self
      { s self with children := (s self).children.eraseIdx index.toNat }
    updateStore s1 child { s1 child with parent := none }
  else s

/-- `getAbsoluteX()` (src/src/index.ts:84-89), with the `Scene` override that
returns `0` unconditionally (src/src/index.ts:287-289) dispatched first.
Fuel bounds the walk up the parent chain; `none` means fuel ran out. -/
def getAbsoluteX (s : Store) : Nat → NodeId → Option Int
  | 0, _ => none
  | fuel + 1, i =>
    let nd := s i
    if nd.kind = ShapeKind.scene then some 0
    else
      match nd.parent with
      | none => some nd.x
      | some p => (getAbsoluteX s fuel p).map (fun v => v + nd.x)

/-- `getAbsoluteY()` (src/src/index.ts:92-97), with the `Scene` override
(src/src/index.ts:291-293). -/
def getAbsoluteY (s : Store) : Nat → NodeId → Option Int
  | 0, _ => none
  | fuel + 1, i =>
    let nd := s i
    if nd.kind = ShapeKind.scene then some 0
    else
      match nd.parent with
      | none => some nd.y
      | some p => (getAbsoluteY s fuel p).map (fun v => v + nd.y)

/-- `containsPoint(x, y)`.  For a `Circle` the override
(src/src/index.ts:176-186) is used:
`Math.sqrt((x-cx)^2 + (y-cy)^2) <= radius` with the center at
`(getAbsoluteX() + radius, getAbsoluteY() + radius)`.  Over the reals,
`sqrt d ≤ r` holds iff `0 ≤ r ∧ d ≤ r^2` (the square root is nonnegative), and
on integer inputs the JS doubles compute these squares exactly, so the
embedding uses the squared comparison.  Every other kind uses the `BaseShape`
default (src/src/index.ts:70-81): `localX = x - getAbsoluteX()`,
`localY = y - getAbsoluteY()`, inside iff
`0 ≤ localX ≤ width ∧ 0 ≤ localY ≤ height`. -/
def containsPoint (s : Store) (fuel : Nat) (i : NodeId) (px py : Int) : Option Bool :=
  let nd := s i
  match getAbsoluteX s fuel i, getAbsoluteY s fuel i with
  | some ax, some ay =>
    if nd.kind = ShapeKind.circle then
      let centerX := ax + nd.radius
      let centerY := ay + nd.radius
      some (decide (0 ≤ nd.radius ∧
        (px - centerX) ^ 2 + (py - centerY) ^ 2 ≤ nd.radius ^ 2))
    else
      let localX := px - ax
      let localY := py - ay
      some (decide (0 ≤ localX ∧ localX ≤ nd.width ∧
        0 ≤ localY ∧ localY ≤ nd.height))
  | _, _ => none

/-- The loop of `handleEvent` (src/src/index.ts:102-108) applied to an already
reversed child list: return the first element whose `containsPoint` is true
(`some (some c)`), `some none` when no element contains the point, `none` when
a containment test ran out of fuel. -/
def firstContaining (s : Store) (fuel : Nat) (px py : Int) :
    List NodeId → Option (Option NodeId)
  | [] => some none
  | c :: rest =>
    match containsPoint s fuel c px py with
    | none => none
    | some true => some (some c)
    | some false => firstContaining s fuel px py rest

/-- `handleEvent(event)` (src/src/index.ts:100-114): scan the children from the
last to the first; recurse into the first one containing the point and stop;
if none contains it, the node handles the event itself — `onClick` fires iff
`event.type === 'click'`.  The result is the id of the node whose `onClick`
ran (`some (some j)`), `some none` when the event was dropped, `none` when the
fuel ran out.  `onClick` only writes to the console, so dispatch changes no
program state. -/
def handleEvent (s : Store) : Nat → NodeId → HandleEventData → Option (Option NodeId)
  | 0, _, _ => none
  | fuel + 1, i, ev =>
    match firstContaining s fuel ev.x ev.y (s i).children.reverse with
    | none => none
    | some (some c) => handleEvent s fuel c ev
    | some none =>
      if ev.type = "click" then some (some i) else some none

/-- A canvas-context call emitted while painting. -/
inductive PaintCmd where
  | setStrokeStyle (color : String)
  | setFillStyle (color : String)
  | setFont (font : String)
  | strokeRect (x y w h : Int)
  | fillText (ch : Char) (x y : Int)
  | arc (cx cy r : Int)
  | clearRect (x y w h : Int)
deriving DecidableEq

/-- The character loop of `CustomText.draw` (src/src/index.ts:212-215): for
each character the running offset `absY` first advances by 20, then the
character is painted at the advanced offset.  Returns the final value of the
running offset together with the emitted `fillText` calls. -/
def paintChars (absX : Int) : List Char → Int → Int × List PaintCmd
  | [], absY => (absY, [])
  | ch :: rest, absY =>
    let absY2 := absY + 20
    let r := paintChars absX rest absY2
    (r.1, PaintCmd.fillText ch absX absY2 :: r.2)

/-- The geometry side effect of `CustomText.draw` (src/src/index.ts:219-220):
`this.width = ctx.measureText(this.text.split('')[0]).width;
 this.height = absY + 20;` where `absY` is the final running offset. -/
def CustomText.updateGeom (measure : Option Char → Int) (nd : Node)
    (finalY : Int) : Node :=
  { nd with width := measure nd.text.head?, height := finalY + 20 }

/-- `this.children.forEach(child => child.draw(ctx))`, threading the store;
the draw of a single child is the parameter `drawOne`. -/
def drawChildrenAux (drawOne : Store → NodeId → Option (Store × List PaintCmd)) :
    Store → List NodeId → Option (Store × List PaintCmd)
  | s, [] => some (s, [])
  | s, c :: cs =>
    match drawOne s c with
    | some (s2, cmds) =>
      match drawChildrenAux drawOne s2 cs with
      | some (s3, cmds2) => some (s3, cmds ++ cmds2)
      | none => none
    | none => none

/-- One step of `draw`, dispatched on the kind, with the draw of each child
supplied as `drawPrev`: `Rectangle`/`PalaceContainer` stroke their rectangle
(src/src/index.ts:134-143, 307-316), `Circle` fills its disc
(src/src/index.ts:162-173), `CustomText` paints its characters and then
mutates its own width/height (src/src/index.ts:206-224), `Scene` clears the
canvas (src/src/index.ts:278-284); each then draws its children in sequence
order.  The store is threaded because `CustomText.draw` writes the node. -/
def drawShapeF (measure : Option Char → Int) (fuel : Nat)
    (drawPrev : Store → NodeId → Option (Store × List PaintCmd))
    (s : Store) (i : NodeId) : Option (Store × List PaintCmd) :=
  let nd := s i
  match nd.kind with
  | ShapeKind.scene =>
    match drawChildrenAux drawPrev s nd.children with
    | some (s2, cmds) =>
      some (s2, PaintCmd.clearRect 0 0 nd.width nd.height :: cmds)
    | none => none
  | ShapeKind.rectangle =>
    match getAbsoluteX s fuel i, getAbsoluteY s fuel i with
    | some ax, some ay =>
      match drawChildrenAux drawPrev s nd.children with
      | some (s2, cmds) =>
        some (s2, PaintCmd.setStrokeStyle nd.strokeColor ::
          PaintCmd.strokeRect ax ay nd.width nd.height :: cmds)
      | none => none
    | _, _ => none
  | ShapeKind.palaceContainer =>
    match getAbsoluteX s fuel i, getAbsoluteY s fuel i with
    | some ax, some ay =>
      match drawChildrenAux drawPrev s nd.children with
      | some (s2, cmds) =>
        some (s2, PaintCmd.setStrokeStyle nd.strokeColor ::
          PaintCmd.strokeRect ax ay nd.width nd.height :: cmds)
      | none => none
    | _, _ => none
  | ShapeKind.circle =>
    match getAbsoluteX s fuel i, getAbsoluteY s fuel i with
    | some ax, some ay =>
      match drawChildrenAux drawPrev s nd.children with
      | some (s2, cmds) =>
        some (s2, PaintCmd.setFillStyle nd.fillColor ::
          PaintCmd.arc (ax + nd.radius) (ay + nd.radius) nd.radius :: cmds)
      | none => none
    | _, _ => none
  | ShapeKind.customText =>
    match getAbsoluteX s fuel i, getAbsoluteY s fuel i with
    | some ax, some ay =>
      let pc := paintChars ax nd.text ay
      let nd2 := CustomText.updateGeom measure nd pc.1
      let s2 := updateStore s i nd2
      match drawChildrenAux drawPrev s2 nd2.children with
      | some (s3, cmds) =>
        some (s3, PaintCmd.setFont nd.font :: PaintCmd.setFillStyle nd.fillColor ::
          (pc.2 ++ cmds))
      | none => none
    | _, _ => none

/-- `draw` with fuel: `none` means the fuel ran out.  At fuel `fuel + 1` the
node's own `getAbsoluteX/Y` calls run at fuel `fuel` and every child is drawn
at fuel `fuel`. -/
def drawShape (measure : Option Char → Int) : Nat → Store → NodeId →
    Option (Store × List PaintCmd)
  | 0 => fun _ _ => none
  | fuel + 1 => drawShapeF measure fuel (drawShape measure fuel)

/-! ### Concrete configurations used to instantiate the theorems -/

/-- A filler node for unallocated heap addresses. -/
def defaultNode : Node := BaseShape.init ShapeKind.rectangle 0 0 0 0

/-- A sample `measureText`: every character measures 9 wide, the missing first
character of an empty string measures 7. -/
def measureNine : Option Char → Int :=
  fun c => match c with | some _ => 9 | none => 7

def exBase : Store := fun i =>
  if i = 0 then Scene.new 700 900
  else if i = 1 then Rectangle.new 5 7 100 50 "blue"
  else if i = 2 then Rectangle.new 3 4 30 30 "red"
  else defaultNode

/-- Scene 0 ← rectangle 1 at (5,7) sized 100×50 ← rectangle 2 at (3,4). -/
def exRects : Store := addChild (addChild exBase 0 1) 1 2

def circleBase : Store := fun i =>
  if i = 0 then Scene.new 700 900
  else if i = 1 then Circle.new 0 0 40 "red"
  else defaultNode

/-- Scene 0 ← circle 1 of radius 40 at local (0,0): absolute center (40,40). -/
def circleStore : Store := addChild circleBase 0 1

def textABase : Store := fun i =>
  if i = 0 then Scene.new 700 900
  else if i = 1 then CustomText.new 0 0 ['a'] "18px Arial" "black"
  else defaultNode

/-- Scene 0 ← one-character text node 1 at local (0,0). -/
def textA : Store := addChild textABase 0 1

def textABBase : Store := fun i =>
  if i = 0 then Scene.new 700 900
  else if i = 1 then PalaceContainer.new 60 60 160 200 "black"
  else if i = 2 then CustomText.new 10 30 ['a', 'b'] "20px Arial" "black"
  else if i = 3 then Rectangle.new 0 140 40 60 "black"
  else defaultNode

/-- Scene 0 ← container 1 holding a text node 2 and a rectangle footer 3. -/
def textAB : Store := addChild (addChild (addChild textABBase 0 1) 1 2) 1 3

def dupBase : Store := fun i =>
  if i = 0 then Scene.new 700 900
  else if i = 1 then Rectangle.new 0 0 10 10 "blue"
  else defaultNode

/-- The same rectangle added to the scene twice: `children 0 = [1, 1]`.
`addChild` performs no duplicate check, so this state is reachable. -/
def dupStore : Store := addChild (addChild dupBase 0 1) 0 1

def abcBase : Store := fun i =>
  if i = 0 then Scene.new 700 900
  else if i = 1 then Rectangle.new 200 200 10 10 "blue"
  else if i = 2 then Rectangle.new 10 10 50 50 "green"
  else if i = 3 then Rectangle.new 20 20 50 50 "red"
  else defaultNode

/-- Scene 0 with children [A, B, C] = [1, 2, 3] added in that order; B and C
both contain the point (30, 30), A does not. -/
def abcStore : Store := addChild (addChild (addChild abcBase 0 1) 0 2) 0 3

def soloRectBase : Store := fun i =>
  if i = 0 then Scene.new 700 900
  else if i = 1 then Rectangle.new 0 0 100 50 "blue"
  else defaultNode

/-- Scene 0 whose only child is a rectangle covering (0,0)–(100,50). -/
def soloRect : Store := addChild soloRectBase 0 1

def reparentBase : Store := fun i =>
  if i = 0 then Scene.new 700 900
  else if i = 1 then PalaceContainer.new 60 60 160 200 "black"
  else if i = 2 then PalaceContainer.new 220 60 160 200 "black"
  else if i = 3 then Rectangle.new 3 4 30 30 "red"
  else defaultNode

/-- Scene 0 with two containers 1 and 2; the rectangle 3 is a child of
container 1.  Adding 3 to container 2 on top of this exercises re-parenting. -/
def reparent1 : Store := addChild (addChild (addChild reparentBase 0 1) 0 2) 1 3

/-- A three-node parent chain written with explicit links: scene 0 ← 1 ← 2. -/
def chainStore : Store := fun i =>
  if i = 0 then { Scene.new 700 900 with children := [1] }
  else if i = 1 then
    { Rectangle.new 5 7 100 50 "blue" with parent := some 0, children := [2] }
  else if i = 2 then
    { Rectangle.new 3 4 30 30 "red" with parent := some 1 }
  else defaultNode

/-- A rank decreasing along `chainStore`'s parent links. -/
def chainD : NodeId → Nat := fun i => if i ≤ 2 then i else 0

/-- A rank decreasing along `chainStore`'s child lists. -/
def chainE : NodeId → Nat := fun i => if i = 0 then 2 else if i = 1 then 1 else 0

/-! ### Store and recursion helper lemmas -/

theorem updateStore_same (s : Store) (i : NodeId) (nd : Node) :
    updateStore s i nd i = nd := by
  simp [updateStore]

theorem updateStore_other (s : Store) (i j : NodeId) (nd : Node) (h : j ≠ i) :
    updateStore s i nd j = s j := by
  simp [updateStore, h]

theorem updateStore_self (s : Store) (i : NodeId) :
    updateStore s i (s i) = s := by
  funext j
  by_cases h : j = i <;> simp [updateStore, h]

theorem getAbsoluteX_succ (s : Store) (fuel : Nat) (i : NodeId) :
    getAbsoluteX s (fuel + 1) i =
      if (s i).kind = ShapeKind.scene then some 0
      else
        match (s i).parent with
        | none => some (s i).x
        | some p => (getAbsoluteX s fuel p).map (fun v => v + (s i).x) := rfl

theorem getAbsoluteY_succ (s : Store) (fuel : Nat) (i : NodeId) :
    getAbsoluteY s (fuel + 1) i =
      if (s i).kind = ShapeKind.scene then some 0
      else
        match (s i).parent with
        | none => some (s i).y
        | some p => (getAbsoluteY s fuel p).map (fun v => v + (s i).y) := rfl

theorem getAbsoluteX_scene (s : Store) (fuel : Nat) (i : NodeId)
    (hs : (s i).kind = ShapeKind.scene) :
    getAbsoluteX s (fuel + 1) i = some 0 := by
  simp [getAbsoluteX_succ, hs]

theorem getAbsoluteX_root (s : Store) (fuel : Nat) (i : NodeId)
    (hs : (s i).kind ≠ ShapeKind.scene) (hp : (s i).parent = none) :
    getAbsoluteX s (fuel + 1) i = some (s i).x := by
  simp [getAbsoluteX_succ, hs, hp]

theorem getAbsoluteX_parent (s : Store) (fuel : Nat) (i p : NodeId)
    (hs : (s i).kind ≠ ShapeKind.scene) (hp : (s i).parent = some p) :
    getAbsoluteX s (fuel + 1) i =
      (getAbsoluteX s fuel p).map (fun v => v + (s i).x) := by
  simp [getAbsoluteX_succ, hs, hp]

theorem getAbsoluteY_scene (s : Store) (fuel : Nat) (i : NodeId)
    (hs : (s i).kind = ShapeKind.scene) :
    getAbsoluteY s (fuel + 1) i = some 0 := by
  simp [getAbsoluteY_succ, hs]

theorem getAbsoluteY_root (s : Store) (fuel : Nat) (i : NodeId)
    (hs : (s i).kind ≠ ShapeKind.scene) (hp : (s i).parent = none) :
    getAbsoluteY s (fuel + 1) i = some (s i).y := by
  simp [getAbsoluteY_succ, hs, hp]

theorem getAbsoluteY_parent (s : Store) (fuel : Nat) (i p : NodeId)
    (hs : (s i).kind ≠ ShapeKind.scene) (hp : (s i).parent = some p) :
    getAbsoluteY s (fuel + 1) i =
      (getAbsoluteY s fuel p).map (fun v => v + (s i).y) := by
  simp [getAbsoluteY_succ, hs, hp]

theorem getAbsoluteX_mono (s : Store) :
    ∀ fuel i v, getAbsoluteX s fuel i = some v →
      getAbsoluteX s (fuel + 1) i = some v := by
  intro fuel
  induction fuel with
  | zero => intro i v h; simp [getAbsoluteX] at h
  | succ n ih =>
    intro i v h
    by_cases hs : (s i).kind = ShapeKind.scene
    · rw [getAbsoluteX_scene s n i hs] at h
      rw [getAbsoluteX_scene s (n + 1) i hs]
      exact h
    · cases hp : (s i).parent with
      | none =>
        rw [getAbsoluteX_root s n i hs hp] at h
        rw [getAbsoluteX_root s (n + 1) i hs hp]
        exact h
      | some p =>
        rw [getAbsoluteX_parent s n i p hs hp] at h
        rw [getAbsoluteX_parent s (n + 1) i p hs hp]
        cases hg : getAbsoluteX s n p with
        | none => rw [hg] at h; simp at h
        | some w => rw [hg] at h; rw [ih p w hg]; exact h

theorem getAbsoluteY_mono (s : Store) :
    ∀ fuel i v, getAbsoluteY s fuel i = some v →
      getAbsoluteY s (fuel + 1) i = some v := by
  intro fuel
  induction fuel with
  | zero => intro i v h; simp [getAbsoluteY] at h
  | succ n ih =>
    intro i v h
    by_cases hs : (s i).kind = ShapeKind.scene
    · rw [getAbsoluteY_scene s n i hs] at h
      rw [getAbsoluteY_scene s (n + 1) i hs]
      exact h
    · cases hp : (s i).parent with
      | none =>
        rw [getAbsoluteY_root s n i hs hp] at h
        rw [getAbsoluteY_root s (n + 1) i hs hp]
        exact h
      | some p =>
        rw [getAbsoluteY_parent s n i p hs hp] at h
        rw [getAbsoluteY_parent s (n + 1) i p hs hp]
        cases hg : getAbsoluteY s n p with
        | none => rw [hg] at h; simp at h
        | some w => rw [hg] at h; rw [ih p w hg]; exact h

theorem getAbsoluteX_mono_le (s : Store) (fuel fuel' : Nat) (i : NodeId) (v : Int)
    (hle : fuel ≤ fuel') (h : getAbsoluteX s fuel i = some v) :
    getAbsoluteX s fuel' i = some v := by
  induction fuel', hle using Nat.le_induction with
  | base => exact h
  | succ n _ ih => exact getAbsoluteX_mono s n i v ih

theorem getAbsoluteY_mono_le (s : Store) (fuel fuel' : Nat) (i : NodeId) (v : Int)
    (hle : fuel ≤ fuel') (h : getAbsoluteY s fuel i = some v) :
    getAbsoluteY s fuel' i = some v := by
  induction fuel', hle using Nat.le_induction with
  | base => exact h
  | succ n _ ih => exact getAbsoluteY_mono s n i v ih

theorem getAbsoluteX_congr (s s' : Store)
    (h : ∀ j, (s' j).x = (s j).x ∧ (s' j).kind = (s j).kind ∧
      (s' j).parent = (s j).parent) :
    ∀ fuel i, getAbsoluteX s' fuel i = getAbsoluteX s fuel i := by
  intro fuel
  induction fuel with
  | zero => intro i; rfl
  | succ n ih =>
    intro i
    by_cases hs : (s i).kind = ShapeKind.scene
    · rw [getAbsoluteX_scene s n i hs,
        getAbsoluteX_scene s' n i (by rw [(h i).2.1]; exact hs)]
    · have hs' : (s' i).kind ≠ ShapeKind.scene := by rw [(h i).2.1]; exact hs
      cases hp : (s i).parent with
      | none =>
        rw [getAbsoluteX_root s n i hs hp,
          getAbsoluteX_root s' n i hs' (by rw [(h i).2.2]; exact hp), (h i).1]
      | some p =>
        rw [getAbsoluteX_parent s n i p hs hp,
          getAbsoluteX_parent s' n i p hs' (by rw [(h i).2.2]; exact hp),
          (h i).1, ih p]

theorem getAbsoluteY_congr (s s' : Store)
    (h : ∀ j, (s' j).y = (s j).y ∧ (s' j).kind = (s j).kind ∧
      (s' j).parent = (s j).parent) :
    ∀ fuel i, getAbsoluteY s' fuel i = getAbsoluteY s fuel i := by
  intro fuel
  induction fuel with
  | zero => intro i; rfl
  | succ n ih =>
    intro i
    by_cases hs : (s i).kind = ShapeKind.scene
    · rw [getAbsoluteY_scene s n i hs,
        getAbsoluteY_scene s' n i (by rw [(h i).2.1]; exact hs)]
    · have hs' : (s' i).kind ≠ ShapeKind.scene := by rw [(h i).2.1]; exact hs
      cases hp : (s i).parent with
      | none =>
        rw [getAbsoluteY_root s n i hs hp,
          getAbsoluteY_root s' n i hs' (by rw [(h i).2.2]; exact hp), (h i).1]
      | some p =>
        rw [getAbsoluteY_parent s n i p hs hp,
          getAbsoluteY_parent s' n i p hs' (by rw [(h i).2.2]; exact hp),
          (h i).1, ih p]

theorem containsPoint_default_eq (s : Store) (fuel : Nat) (i : NodeId)
    (px py ax ay : Int) (hk : (s i).kind ≠ ShapeKind.circle)
    (hx : getAbsoluteX s fuel i = some ax)
    (hy : getAbsoluteY s fuel i = some ay) :
    containsPoint s fuel i px py =
      some (decide (ax ≤ px ∧ px ≤ ax + (s i).width ∧
        ay ≤ py ∧ py ≤ ay + (s i).height)) := by
  unfold containsPoint
  rw [hx, hy]
  simp only [if_neg hk, Option.some.injEq]
  rw [decide_eq_decide]
  omega

theorem containsPoint_circle_eq (s : Store) (fuel : Nat) (i : NodeId)
    (px py ax ay : Int) (hk : (s i).kind = ShapeKind.circle)
    (hx : getAbsoluteX s fuel i = some ax)
    (hy : getAbsoluteY s fuel i = some ay) :
    containsPoint s fuel i px py =
      some (decide (0 ≤ (s i).radius ∧
        (px - (ax + (s i).radius)) ^ 2 + (py - (ay + (s i).radius)) ^ 2 ≤
          (s i).radius ^ 2)) := by
  unfold containsPoint
  rw [hx, hy]
  simp only [if_pos hk]

theorem containsPoint_mono (s : Store) (fuel : Nat) (i : NodeId) (px py : Int)
    (b : Bool) (h : containsPoint s fuel i px py = some b) :
    containsPoint s (fuel + 1) i px py = some b := by
  unfold containsPoint at h ⊢
  cases hx : getAbsoluteX s fuel i with
  | none => rw [hx] at h; simp at h
  | some ax =>
    cases hy : getAbsoluteY s fuel i with
    | none => rw [hx, hy] at h; simp at h
    | some ay =>
      rw [hx, hy] at h
      rw [getAbsoluteX_mono s fuel i ax hx, getAbsoluteY_mono s fuel i ay hy]
      exact h

theorem firstContaining_mono (s : Store) (fuel : Nat) (px py : Int) :
    ∀ l r, firstContaining s fuel px py l = some r →
      firstContaining s (fuel + 1) px py l = some r := by
  intro l
  induction l with
  | nil => intro r h; simpa [firstContaining] using h
  | cons c rest ih =>
    intro r h
    unfold firstContaining at h ⊢
    cases hc : containsPoint s fuel c px py with
    | none => rw [hc] at h; simp at h
    | some b =>
      rw [hc] at h
      rw [containsPoint_mono s fuel c px py b hc]
      cases b with
      | true => exact h
      | false => exact ih r h

theorem firstContaining_cons_true (s : Store) (fuel : Nat) (px py : Int)
    (c : NodeId) (l : List NodeId)
    (hc : containsPoint s fuel c px py = some true) :
    firstContaining s fuel px py (c :: l) = some (some c) := by
  unfold firstContaining
  rw [hc]

theorem firstContaining_cons (s : Store) (fuel : Nat) (px py : Int)
    (c : NodeId) (l : List NodeId) :
    firstContaining s fuel px py (c :: l) =
      match containsPoint s fuel c px py with
      | none => none
      | some true => some (some c)
      | some false => firstContaining s fuel px py l := rfl

theorem firstContaining_append_false (s : Store) (fuel : Nat) (px py : Int)
    (l1 l2 : List NodeId)
    (h : ∀ d ∈ l1, containsPoint s fuel d px py = some false) :
    firstContaining s fuel px py (l1 ++ l2) =
      firstContaining s fuel px py l2 := by
  induction l1 with
  | nil => rfl
  | cons c rest ih =>
    have hc := h c (by simp)
    rw [List.cons_append]
    simp only [firstContaining_cons, hc]
    exact ih (fun d hd => h d (by simp [hd]))

theorem firstContaining_all_false (s : Store) (fuel : Nat) (px py : Int)
    (l : List NodeId)
    (h : ∀ d ∈ l, containsPoint s fuel d px py = some false) :
    firstContaining s fuel px py l = some none := by
  have := firstContaining_append_false s fuel px py l [] h
  simpa [firstContaining] using this

theorem firstContaining_mem (s : Store) (fuel : Nat) (px py : Int) :
    ∀ l c, firstContaining s fuel px py l = some (some c) → c ∈ l := by
  intro l
  induction l with
  | nil => intro c h; simp [firstContaining] at h
  | cons a rest ih =>
    intro c h
    unfold firstContaining at h
    cases ha : containsPoint s fuel a px py with
    | none => rw [ha] at h; simp at h
    | some b =>
      rw [ha] at h
      cases b with
      | true => simp at h; simp [h]
      | false => exact List.mem_cons_of_mem a (ih c h)

theorem handleEvent_succ (s : Store) (fuel : Nat) (i : NodeId)
    (ev : HandleEventData) :
    handleEvent s (fuel + 1) i ev =
      match firstContaining s fuel ev.x ev.y (s i).children.reverse with
      | none => none
      | some (some c) => handleEvent s fuel c ev
      | some none =>
        if ev.type = "click" then some (some i) else some none := rfl

theorem handleEvent_mono (s : Store) (ev : HandleEventData) :
    ∀ fuel i r, handleEvent s fuel i ev = some r →
      handleEvent s (fuel + 1) i ev = some r := by
  intro fuel
  induction fuel with
  | zero => intro i r h; simp [handleEvent] at h
  | succ n ih =>
    intro i r h
    rw [handleEvent_succ] at h
    rw [handleEvent_succ]
    cases hf : firstContaining s n ev.x ev.y (s i).children.reverse with
    | none => rw [hf] at h; simp at h
    | some o =>
      rw [hf] at h
      rw [firstContaining_mono s n ev.x ev.y _ o hf]
      cases o with
      | none => exact h
      | some c => exact ih c r h

theorem handleEvent_mono_le (s : Store) (ev : HandleEventData)
    (fuel fuel' : Nat) (i : NodeId) (r : Option NodeId)
    (hle : fuel ≤ fuel') (h : handleEvent s fuel i ev = some r) :
    handleEvent s fuel' i ev = some r := by
  induction fuel', hle using Nat.le_induction with
  | base => exact h
  | succ n _ ih => exact handleEvent_mono s ev n i r ih

theorem handleEvent_click_isSome (s : Store) (ev : HandleEventData)
    (hty : ev.type = "click") :
    ∀ fuel i r, handleEvent s fuel i ev = some r → ∃ j, r = some j := by
  intro fuel
  induction fuel with
  | zero => intro i r h; simp [handleEvent] at h
  | succ n ih =>
    intro i r h
    rw [handleEvent_succ] at h
    cases hf : firstContaining s n ev.x ev.y (s i).children.reverse with
    | none => rw [hf] at h; simp at h
    | some o =>
      rw [hf] at h
      cases o with
      | none =>
        rw [if_pos hty] at h
        exact ⟨i, by simpa using h.symm⟩
      | some c => exact ih c r h

theorem getAbsoluteX_defined (s : Store) (d : NodeId → Nat)
    (hd : ∀ j p, (s j).kind ≠ ShapeKind.scene → (s j).parent = some p →
      d p < d j) :
    ∀ n i, d i < n → ∃ v, getAbsoluteX s (d i + 1) i = some v := by
  intro n
  induction n with
  | zero => intro i h; omega
  | succ n ih =>
    intro i hi
    by_cases hs : (s i).kind = ShapeKind.scene
    · exact ⟨0, getAbsoluteX_scene s (d i) i hs⟩
    · cases hp : (s i).parent with
      | none => exact ⟨(s i).x, getAbsoluteX_root s (d i) i hs hp⟩
      | some p =>
        have hlt := hd i p hs hp
        obtain ⟨v, hv⟩ := ih p (by omega)
        have hv' : getAbsoluteX s (d i) p = some v :=
          getAbsoluteX_mono_le s (d p + 1) (d i) p v (by omega) hv
        exact ⟨v + (s i).x, by
          rw [getAbsoluteX_parent s (d i) i p hs hp, hv']; rfl⟩

theorem getAbsoluteY_defined (s : Store) (d : NodeId → Nat)
    (hd : ∀ j p, (s j).kind ≠ ShapeKind.scene → (s j).parent = some p →
      d p < d j) :
    ∀ n i, d i < n → ∃ v, getAbsoluteY s (d i + 1) i = some v := by
  intro n
  induction n with
  | zero => intro i h; omega
  | succ n ih =>
    intro i hi
    by_cases hs : (s i).kind = ShapeKind.scene
    · exact ⟨0, getAbsoluteY_scene s (d i) i hs⟩
    · cases hp : (s i).parent with
      | none => exact ⟨(s i).y, getAbsoluteY_root s (d i) i hs hp⟩
      | some p =>
        have hlt := hd i p hs hp
        obtain ⟨v, hv⟩ := ih p (by omega)
        have hv' : getAbsoluteY s (d i) p = some v :=
          getAbsoluteY_mono_le s (d p + 1) (d i) p v (by omega) hv
        exact ⟨v + (s i).y, by
          rw [getAbsoluteY_parent s (d i) i p hs hp, hv']; rfl⟩

theorem containsPoint_defined (s : Store) (d : NodeId → Nat) (B : Nat)
    (hd : ∀ j p, (s j).kind ≠ ShapeKind.scene → (s j).parent = some p →
      d p < d j)
    (hB : ∀ j, d j < B) :
    ∀ fuel i px py, B ≤ fuel → ∃ b, containsPoint s fuel i px py = some b := by
  intro fuel i px py hf
  obtain ⟨vx, hvx⟩ := getAbsoluteX_defined s d hd (d i + 1) i (by omega)
  obtain ⟨vy, hvy⟩ := getAbsoluteY_defined s d hd (d i + 1) i (by omega)
  have hvx' : getAbsoluteX s fuel i = some vx :=
    getAbsoluteX_mono_le s (d i + 1) fuel i vx (by have := hB i; omega) hvx
  have hvy' : getAbsoluteY s fuel i = some vy :=
    getAbsoluteY_mono_le s (d i + 1) fuel i vy (by have := hB i; omega) hvy
  by_cases hc : (s i).kind = ShapeKind.circle
  · exact ⟨_, containsPoint_circle_eq s fuel i px py vx vy hc hvx' hvy'⟩
  · exact ⟨_, containsPoint_default_eq s fuel i px py vx vy hc hvx' hvy'⟩

theorem firstContaining_defined (s : Store) (d : NodeId → Nat) (B : Nat)
    (hd : ∀ j p, (s j).kind ≠ ShapeKind.scene → (s j).parent = some p →
      d p < d j)
    (hB : ∀ j, d j < B) :
    ∀ (l : List NodeId) fuel px py, B ≤ fuel →
      ∃ r, firstContaining s fuel px py l = some r := by
  intro l
  induction l with
  | nil => intro fuel px py _; exact ⟨none, rfl⟩
  | cons c rest ih =>
    intro fuel px py hf
    obtain ⟨b, hb⟩ := containsPoint_defined s d B hd hB fuel c px py hf
    cases b with
    | true => exact ⟨some c, by rw [firstContaining_cons, hb]⟩
    | false =>
      obtain ⟨r, hr⟩ := ih fuel px py hf
      exact ⟨r, by simp only [firstContaining_cons, hb]; exact hr⟩

theorem handleEvent_defined (s : Store) (d e : NodeId → Nat) (B : Nat)
    (hd : ∀ j p, (s j).kind ≠ ShapeKind.scene → (s j).parent = some p →
      d p < d j)
    (hB : ∀ j, d j < B)
    (he : ∀ j c, c ∈ (s j).children → e c < e j) :
    ∀ n i ev, e i < n → ∃ r, handleEvent s (e i + B + 1) i ev = some r := by
  intro n
  induction n with
  | zero => intro i ev h; omega
  | succ n ih =>
    intro i ev hi
    obtain ⟨o, ho⟩ := firstContaining_defined s d B hd hB
      (s i).children.reverse (e i + B) ev.x ev.y (by omega)
    cases o with
    | none =>
      refine ⟨if ev.type = "click" then some i else none, ?_⟩
      rw [handleEvent_succ, ho]
      by_cases hty : ev.type = "click" <;> simp [hty]
    | some c =>
      have hc : c ∈ (s i).children := by
        have := firstContaining_mem s (e i + B) ev.x ev.y
          (s i).children.reverse c ho
        simpa using this
      have hce := he i c hc
      obtain ⟨r, hr⟩ := ih c ev (by omega)
      have hr' : handleEvent s (e i + B) c ev = some r :=
        handleEvent_mono_le s ev (e c + B + 1) (e i + B) c r (by omega) hr
      exact ⟨r, by rw [handleEvent_succ, ho]; exact hr'⟩

theorem paintChars_fst (absX : Int) :
    ∀ (t : List Char) (y : Int), (paintChars absX t y).1 = y + 20 * t.length := by
  intro t
  induction t with
  | nil => intro y; simp [paintChars]
  | cons ch rest ih =>
    intro y
    simp only [paintChars, ih (y + 20), List.length_cons]
    push_cast
    ring

theorem paintChars_length (absX : Int) :
    ∀ (t : List Char) (y : Int), (paintChars absX t y).2.length = t.length := by
  intro t
  induction t with
  | nil => intro y; simp [paintChars]
  | cons ch rest ih => intro y; simp [paintChars, ih (y + 20)]

theorem paintChars_get (absX : Int) :
    ∀ (t : List Char) (y : Int) (k : Nat),
      ((paintChars absX t y).2)[k]? =
        (t[k]?).map (fun ch =>
          PaintCmd.fillText ch absX (y + 20 * ((k : Int) + 1))) := by
  intro t
  induction t with
  | nil => intro y k; simp [paintChars]
  | cons ch rest ih =>
    intro y k
    cases k with
    | zero => simp [paintChars]
    | succ k =>
      simp only [paintChars, List.getElem?_cons_succ]
      rw [ih (y + 20) k]
      cases rest[k]? with
      | none => rfl
      | some c2 =>
        simp only [Option.map_some', Option.some.injEq, PaintCmd.fillText.injEq]
        refine ⟨trivial, trivial, ?_⟩
        push_cast
        ring

theorem jsIndexOf_of_not_mem :
    ∀ (l : List NodeId) (c : NodeId), c ∉ l → jsIndexOf l c = -1 := by
  intro l
  induction l with
  | nil => intro c _; rfl
  | cons a rest ih =>
    intro c h
    have hac : a ≠ c := fun hh => h (by simp [hh])
    have hcr : c ∉ rest := fun hh => h (by simp [hh])
    simp [jsIndexOf, hac, ih c hcr]

theorem jsIndexOf_append_cons :
    ∀ (pre post : List NodeId) (c : NodeId), c ∉ pre →
      jsIndexOf (pre ++ c :: post) c = pre.length := by
  intro pre
  induction pre with
  | nil => intro post c _; simp [jsIndexOf]
  | cons a rest ih =>
    intro post c h
    have hac : a ≠ c := fun hh => h (by simp [hh])
    have hcr : c ∉ rest := fun hh => h (by simp [hh])
    rw [List.cons_append]
    simp only [jsIndexOf, if_neg hac, ih post c hcr]
    rw [if_neg (by omega : ¬((rest.length : Int)) = -1)]
    simp only [List.length_cons]
    push_cast
    ring

theorem eraseIdx_append_length :
    ∀ (pre post : List NodeId) (c : NodeId),
      (pre ++ c :: post).eraseIdx pre.length = pre ++ post := by
  intro pre
  induction pre with
  | nil => intro post c; rfl
  | cons a rest ih =>
    intro post c
    simp only [List.cons_append, List.length_cons, List.eraseIdx_cons_succ,
      ih post c]

theorem exists_first_split :
    ∀ (l : List NodeId) (c : NodeId), c ∈ l →
      ∃ pre post, l = pre ++ c :: post ∧ c ∉ pre := by
  intro l
  induction l with
  | nil => intro c h; simp at h
  | cons a rest ih =>
    intro c h
    by_cases hac : a = c
    · exact ⟨[], rest, by simp [hac], by simp⟩
    · have hcr : c ∈ rest := by
        rcases List.mem_cons.mp h with h1 | h2
        · exact absurd h1.symm hac
        · exact h2
      obtain ⟨pre, post, hsplit, hpre⟩ := ih c hcr
      refine ⟨a :: pre, post, by simp [hsplit], ?_⟩
      intro hc
      rcases List.mem_cons.mp hc with h1 | h2
      · exact hac h1.symm
      · exact hpre h2

theorem removeChild_not_mem (s : Store) (p c : NodeId)
    (h : c ∉ (s p).children) : removeChild s p c = s := by
  unfold removeChild
  rw [jsIndexOf_of_not_mem _ c h]
  simp

theorem removeChild_found (s : Store) (p c : NodeId) (pre post : List NodeId)
    (hpc : p ≠ c)
    (hch : (s p).children = pre ++ c :: post) (hpre : c ∉ pre) :
    ((removeChild s p c) p).children = pre ++ post ∧
    ((removeChild s p c) c).parent = none ∧
    ∀ j, j ≠ p → j ≠ c → removeChild s p c j = s j := by
  unfold removeChild
  rw [hch, jsIndexOf_append_cons pre post c hpre]
  rw [if_pos (by omega : ¬((pre.length : Int)) = -1)]
  refine ⟨?_, ?_, ?_⟩
  · rw [updateStore_other _ _ _ _ hpc, updateStore_same]
    simp only [Int.toNat_natCast]
    exact eraseIdx_append_length pre post c
  · rw [updateStore_same]
  · intro j hjp hjc
    rw [updateStore_other _ _ _ _ hjc, updateStore_other _ _ _ _ hjp]

theorem drawShape_succ (measure : Option Char → Int) (fuel : Nat) (s : Store)
    (i : NodeId) :
    drawShape measure (fuel + 1) s i =
      drawShapeF measure fuel (drawShape measure fuel) s i := rfl

theorem drawShape_customText (measure : Option Char → Int) (s : Store)
    (fuel : Nat) (i : NodeId) (ax ay : Int)
    (hk : (s i).kind = ShapeKind.customText)
    (hch : (s i).children = [])
    (hx : getAbsoluteX s fuel i = some ax)
    (hy : getAbsoluteY s fuel i = some ay) :
    drawShape measure (fuel + 1) s i =
      some (updateStore s i
          (CustomText.updateGeom measure (s i) ((paintChars ax (s i).text ay).1)),
        PaintCmd.setFont (s i).font :: PaintCmd.setFillStyle (s i).fillColor ::
          (paintChars ax (s i).text ay).2) := by
  rw [drawShape_succ]
  unfold drawShapeF
  simp only [hk, hx, hy]
  simp [CustomText.updateGeom, hch, drawChildrenAux]

theorem updateStore_absX_congr (s : Store) (i : NodeId) (nd2 : Node)
    (hx : nd2.x = (s i).x) (hk : nd2.kind = (s i).kind)
    (hp : nd2.parent = (s i).parent) :
    ∀ fuel j, getAbsoluteX (updateStore s i nd2) fuel j =
      getAbsoluteX s fuel j := by
  apply getAbsoluteX_congr
  intro j
  by_cases hj : j = i
  · subst hj; simp [updateStore, hx, hk, hp]
  · simp [updateStore, hj]

theorem updateStore_absY_congr (s : Store) (i : NodeId) (nd2 : Node)
    (hy : nd2.y = (s i).y) (hk : nd2.kind = (s i).kind)
    (hp : nd2.parent = (s i).parent) :
    ∀ fuel j, getAbsoluteY (updateStore s i nd2) fuel j =
      getAbsoluteY s fuel j := by
  apply getAbsoluteY_congr
  intro j
  by_cases hj : j = i
  · subst hj; simp [updateStore, hy, hk, hp]
  · simp [updateStore, hj]

theorem updateGeom_idem (measure : Option Char → Int) (nd : Node)
    (f1 f2 : Int) :
    CustomText.updateGeom measure (CustomText.updateGeom measure nd f1) f2 =
      CustomText.updateGeom measure nd f2 := by
  cases nd
  simp [CustomText.updateGeom]

/-! ### Claim theorems -/

/-- C1: for every node with a parent (resolved by the `BaseShape` method, i.e.
every kind except the overriding `Scene`), `getAbsoluteX()` equals the parent's
`getAbsoluteX()` plus the node's local `x`, and symmetrically for `y`; a
parentless non-`Scene` node resolves to its local `(x, y)`; a `Scene` node
resolves to `(0, 0)` regardless of its local fields (the override takes
precedence over the parent rule, as in the source's dynamic dispatch). -/
theorem getAbsolute_resolution_spec (s : Store) (i : NodeId) (fuel : Nat) :
    ((s i).kind ≠ ShapeKind.scene →
      ∀ p vx vy, (s i).parent = some p →
        getAbsoluteX s fuel p = some vx →
        getAbsoluteY s fuel p = some vy →
        getAbsoluteX s (fuel + 1) i = some (vx + (s i).x) ∧
        getAbsoluteY s (fuel + 1) i = some (vy + (s i).y)) ∧
    ((s i).kind ≠ ShapeKind.scene → (s i).parent = none →
      getAbsoluteX s (fuel + 1) i = some ((s i).x) ∧
      getAbsoluteY s (fuel + 1) i = some ((s i).y)) ∧
    ((s i).kind = ShapeKind.scene →
      getAbsoluteX s (fuel + 1) i = some 0 ∧
      getAbsoluteY s (fuel + 1) i = some 0) := by
  refine ⟨?_, ?_, ?_⟩
  · intro hs p vx vy hp hx hy
    exact ⟨by rw [getAbsoluteX_parent s fuel i p hs hp, hx]; rfl,
      by rw [getAbsoluteY_parent s fuel i p hs hp, hy]; rfl⟩
  · intro hs hp
    exact ⟨getAbsoluteX_root s fuel i hs hp, getAbsoluteY_root s fuel i hs hp⟩
  · intro hs
    exact ⟨getAbsoluteX_scene s fuel i hs, getAbsoluteY_scene s fuel i hs⟩

/-- Witness for C1 on `exRects`: node 2 sits at local (3,4) under node 1 whose
absolute position is (5,7), so node 2 resolves to (5+3, 7+4). -/
theorem getAbsolute_resolution_spec_witness :
    getAbsoluteX exRects 3 2 = some (5 + (exRects 2).x) ∧
    getAbsoluteY exRects 3 2 = some (7 + (exRects 2).y) :=
  (getAbsolute_resolution_spec exRects 2 2).1 (by decide) 1 5 7
    (by decide) (by decide) (by decide)

/-- C3: the default `containsPoint(x, y)` holds iff
`absX ≤ x ≤ absX + width` and `absY ≤ y ≤ absY + height` — all four edges
inclusive — and a point one unit outside any edge is outside. -/
theorem containsPoint_rect_spec (s : Store) (fuel : Nat) (i : NodeId)
    (px py ax ay : Int) (hk : (s i).kind ≠ ShapeKind.circle)
    (hx : getAbsoluteX s fuel i = some ax)
    (hy : getAbsoluteY s fuel i = some ay) :
    (containsPoint s fuel i px py = some true ↔
      (ax ≤ px ∧ px ≤ ax + (s i).width ∧ ay ≤ py ∧ py ≤ ay + (s i).height)) ∧
    containsPoint s fuel i (ax - 1) py = some false ∧
    containsPoint s fuel i (ax + (s i).width + 1) py = some false ∧
    containsPoint s fuel i px (ay - 1) = some false ∧
    containsPoint s fuel i px (ay + (s i).height + 1) = some false := by
  have key := fun qx qy => containsPoint_default_eq s fuel i qx qy ax ay hk hx hy
  refine ⟨?_, ?_, ?_, ?_, ?_⟩
  · rw [key px py]
    simp
  · rw [key (ax - 1) py]
    simp only [Option.some.injEq, decide_eq_false_iff_not]
    omega
  · rw [key (ax + (s i).width + 1) py]
    simp only [Option.some.injEq, decide_eq_false_iff_not]
    omega
  · rw [key px (ay - 1)]
    simp only [Option.some.injEq, decide_eq_false_iff_not]
    omega
  · rw [key px (ay + (s i).height + 1)]
    simp only [Option.some.injEq, decide_eq_false_iff_not]
    omega

/-- Witness for C3 on `exRects` node 1, whose absolute box is
(5,7)–(105,57): the corner point (105,57) lies on the edge and is inside,
(106,57) and the other one-unit-outside points are outside. -/
theorem containsPoint_rect_spec_witness :
    (containsPoint exRects 3 1 105 57 = some true ↔
      ((5 : Int) ≤ 105 ∧ (105 : Int) ≤ 5 + (exRects 1).width ∧
        (7 : Int) ≤ 57 ∧ (57 : Int) ≤ 7 + (exRects 1).height)) ∧
    containsPoint exRects 3 1 (5 - 1) 57 = some false ∧
    containsPoint exRects 3 1 (5 + (exRects 1).width + 1) 57 = some false ∧
    containsPoint exRects 3 1 105 (7 - 1) = some false ∧
    containsPoint exRects 3 1 105 (7 + (exRects 1).height + 1) = some false :=
  containsPoint_rect_spec exRects 3 1 105 57 5 7 (by decide) (by decide)
    (by decide)

/-- C4: `Circle.containsPoint(x, y)` holds iff the Euclidean distance from
the point to the circle's center `(getAbsoluteX() + radius,
getAbsoluteY() + radius)` is at most `radius`; stated both with `Real.sqrt`
(mirroring `Math.sqrt(...) <= radius`) and in the equivalent squared form. -/
theorem circle_containsPoint_spec (s : Store) (fuel : Nat) (i : NodeId)
    (px py ax ay : Int) (hk : (s i).kind = ShapeKind.circle)
    (hr : 0 ≤ (s i).radius)
    (hx : getAbsoluteX s fuel i = some ax)
    (hy : getAbsoluteY s fuel i = some ay) :
    (containsPoint s fuel i px py = some true ↔
      Real.sqrt ((((px - (ax + (s i).radius) : Int) : ℝ)) ^ 2 +
        (((py - (ay + (s i).radius) : Int) : ℝ)) ^ 2) ≤ ((s i).radius : ℝ)) ∧
    (containsPoint s fuel i px py = some true ↔
      (px - (ax + (s i).radius)) ^ 2 + (py - (ay + (s i).radius)) ^ 2 ≤
        (s i).radius ^ 2) := by
  have key := containsPoint_circle_eq s fuel i px py ax ay hk hx hy
  have hint : containsPoint s fuel i px py = some true ↔
      (px - (ax + (s i).radius)) ^ 2 + (py - (ay + (s i).radius)) ^ 2 ≤
        (s i).radius ^ 2 := by
    rw [key]
    simp [hr]
  refine ⟨?_, hint⟩
  rw [hint]
  rw [show (((px - (ax + (s i).radius) : Int) : ℝ)) ^ 2 +
      (((py - (ay + (s i).radius) : Int) : ℝ)) ^ 2 =
      ((((px - (ax + (s i).radius)) ^ 2 +
        (py - (ay + (s i).radius)) ^ 2 : Int)) : ℝ) from by push_cast; ring]
  rw [Real.sqrt_le_left (by exact_mod_cast hr)]
  constructor <;> intro h <;> exact_mod_cast h

/-- Witness for C4 on `circleStore`: the radius-40 circle at local (0,0) under
the scene root has absolute center (40,40); the point (40,40) is inside and
(81,40), at distance 41, is outside. -/
theorem circle_containsPoint_spec_witness :
    containsPoint circleStore 2 1 40 40 = some true ∧
    containsPoint circleStore 2 1 81 40 = some false := by
  refine ⟨(circle_containsPoint_spec circleStore 2 1 40 40 0 0 (by decide)
    (by decide) (by decide) (by decide)).2.mpr (by decide), ?_⟩
  have h2 := (circle_containsPoint_spec circleStore 2 1 81 40 0 0 (by decide)
    (by decide) (by decide) (by decide)).2
  have hne : ¬ containsPoint circleStore 2 1 81 40 = some true := by
    rw [h2]; decide
  revert hne
  decide

/-- C7: when no child of a node contains the event's point, the node's own
click handler is invoked iff the event's kind tag is `"click"`; otherwise the
event is dropped with no handler call (the embedding's result `some none`) and
no state change (`handleEvent` never writes the store: `onClick` only logs). -/
theorem handleEvent_fallthrough_spec (s : Store) (fuel : Nat) (i : NodeId)
    (ev : HandleEventData)
    (h : ∀ c ∈ (s i).children, containsPoint s fuel c ev.x ev.y = some false) :
    handleEvent s (fuel + 1) i ev =
      some (if ev.type = "click" then some i else none) := by
  have hrev : ∀ c ∈ (s i).children.reverse,
      containsPoint s fuel c ev.x ev.y = some false := by
    intro c hc
    exact h c (List.mem_reverse.mp hc)
  rw [handleEvent_succ, firstContaining_all_false s fuel ev.x ev.y _ hrev]
  by_cases hty : ev.type = "click" <;> simp [hty]

/-- Witness for C7 on `soloRect`: the root's only child covers (0,0)–(100,50),
so a click at (150,150) falls through to the root's own handler, while a
non-click event at the same point is dropped. -/
theorem handleEvent_fallthrough_spec_witness :
    handleEvent soloRect 3 0 (MouseClickEvent 150 150) =
      some (if (MouseClickEvent 150 150).type = "click" then some 0
        else none) ∧
    handleEvent soloRect 3 0 ⟨"mousemove", 150, 150⟩ =
      some (if (HandleEventData.mk "mousemove" 150 150).type = "click"
        then some 0 else none) :=
  ⟨handleEvent_fallthrough_spec soloRect 2 0 (MouseClickEvent 150 150)
      (by decide),
    handleEvent_fallthrough_spec soloRect 2 0 ⟨"mousemove", 150, 150⟩
      (by decide)⟩

/-- C2: `handleEvent` scans the children in reverse sequence order; the first
scanned child containing the point — i.e. the containing child latest in the
sequence, all later siblings being non-containing — receives the recursive
call and the scan stops, so the result never depends on earlier siblings; and
a terminating dispatch of a click event always names exactly one node whose
click handler runs. -/
theorem handleEvent_dispatch_order_spec (s : Store) (fuel : Nat) (i : NodeId)
    (ev : HandleEventData) (pre post : List NodeId) (c : NodeId)
    (hch : (s i).children = pre ++ c :: post)
    (hc : containsPoint s fuel c ev.x ev.y = some true)
    (hpost : ∀ d ∈ post, containsPoint s fuel d ev.x ev.y = some false) :
    handleEvent s (fuel + 1) i ev = handleEvent s fuel c ev ∧
    (∀ r, ev.type = "click" → handleEvent s (fuel + 1) i ev = some r →
      ∃ j, r = some j) := by
  have hrev : (s i).children.reverse = post.reverse ++ c :: pre.reverse := by
    rw [hch]
    simp
  have hpostrev : ∀ d ∈ post.reverse,
      containsPoint s fuel d ev.x ev.y = some false := by
    intro d hd
    exact hpost d (List.mem_reverse.mp hd)
  constructor
  · rw [handleEvent_succ, hrev,
      firstContaining_append_false s fuel ev.x ev.y _ _ hpostrev,
      firstContaining_cons_true s fuel ev.x ev.y c _ hc]
  · intro r hty hr
    exact handleEvent_click_isSome s ev hty (fuel + 1) i r hr

/-- Witness for C2 on `abcStore`: the scene's children are [A, B, C] = [1, 2, 3]
in that order; B and C both contain (30,30), A does not; dispatching the click
recurses into C = 3 (the last-added child) and the handler that runs is C's. -/
theorem handleEvent_dispatch_order_spec_witness :
    handleEvent abcStore 3 0 (MouseClickEvent 30 30) =
      handleEvent abcStore 2 3 (MouseClickEvent 30 30) ∧
    handleEvent abcStore 2 3 (MouseClickEvent 30 30) = some (some 3) ∧
    containsPoint abcStore 2 2 30 30 = some true ∧
    containsPoint abcStore 2 1 30 30 = some false :=
  ⟨(handleEvent_dispatch_order_spec abcStore 2 0 (MouseClickEvent 30 30)
      [1, 2] [] 3 (by decide) (by decide) (by decide)).1,
    by decide, by decide, by decide⟩

/-- C6 counterexample: `addChild` performs no duplicate check, so the same
node can occur twice in a child list (`dupStore`: `children 0 = [1, 1]`).
There, the second of two identical `removeChild` calls is *not* a no-op: it
removes the second occurrence, taking the child list from `[1]` to `[]`.  This
falsifies the claim's "calling removeChild twice with the same child is safe,
the second call being a no-op" in general. -/
theorem removeChild_twice_cex :
    ((removeChild dupStore 0 1) 0).children = [1] ∧
    ((removeChild (removeChild dupStore 0 1) 0 1) 0).children = [] ∧
    ¬ removeChild (removeChild dupStore 0 1) 0 1 = removeChild dupStore 0 1 := by
  refine ⟨by decide, by decide, ?_⟩
  intro h
  have h2 := congrArg (fun t => (t 0).children) h
  revert h2
  decide

/-- C6 (amended): `removeChild(node)` removes the first occurrence found by
identity and clears the node's parent back-link; if the node is not present it
changes nothing (and the embedding is total — nothing throws); consequently,
when the child occurs at most once in the list, calling `removeChild` twice is
safe and the second call is a no-op.  (With duplicate occurrences — reachable
because `addChild` has no duplicate check — the second call removes the next
occurrence; see the counterexample.) -/
theorem removeChild_spec (s : Store) (p c : NodeId) (hpc : p ≠ c) :
    (c ∉ (s p).children → removeChild s p c = s) ∧
    (∀ pre post, (s p).children = pre ++ c :: post → c ∉ pre →
      ((removeChild s p c) p).children = pre ++ post ∧
      ((removeChild s p c) c).parent = none ∧
      ∀ j, j ≠ p → j ≠ c → (removeChild s p c) j = s j) ∧
    (List.count c (s p).children ≤ 1 →
      removeChild (removeChild s p c) p c = removeChild s p c) := by
  refine ⟨removeChild_not_mem s p c,
    fun pre post hch hpre => removeChild_found s p c pre post hpc hch hpre, ?_⟩
  intro hcount
  by_cases hmem : c ∈ (s p).children
  · obtain ⟨pre, post, hch, hpre⟩ := exists_first_split _ c hmem
    have hfound := removeChild_found s p c pre post hpc hch hpre
    apply removeChild_not_mem
    rw [hfound.1]
    have hcnt : List.count c post = 0 := by
      rw [hch] at hcount
      simp [List.count_append, List.count_cons] at hcount
      omega
    have hpost : c ∉ post := List.count_eq_zero.mp hcnt
    rw [List.mem_append]
    push_neg
    exact ⟨hpre, hpost⟩
  · rw [removeChild_not_mem s p c hmem]
    exact removeChild_not_mem s p c hmem

/-- Witness for C6 on `exRects`: removing child 2 from node 1 empties the
child list and clears the back-link; a second identical call is a no-op
(child 2 occurred once); removing the absent node 5 changes nothing. -/
theorem removeChild_spec_witness :
    ((removeChild exRects 1 2) 1).children = [] ∧
    ((removeChild exRects 1 2) 2).parent = none ∧
    removeChild (removeChild exRects 1 2) 1 2 = removeChild exRects 1 2 ∧
    removeChild exRects 1 5 = exRects := by
  have h := removeChild_spec exRects 1 2 (by decide)
  have h5 := removeChild_spec exRects 1 5 (by decide)
  have hf := h.2.1 [] [] (by decide) (by decide)
  exact ⟨by simpa using hf.1, hf.2.1, h.2.2 (by decide), h5.1 (by decide)⟩

/-- C9 (implicit): `addChild` on container `p2` always appends the node to
`p2`'s child sequence and repoints the node's parent link at `p2`, even when
the node is already a child of another container `p1`; `p1` is left entirely
unchanged, so the node appears in both child lists while its parent link names
only `p2`, and its absolute coordinates resolve through `p2`. -/
theorem addChild_reparent_spec (s : Store) (p1 p2 c : NodeId)
    (h12 : p1 ≠ p2) (h1c : p1 ≠ c)
    (hpar : (s c).parent = some p1) (hmem : c ∈ (s p1).children) :
    ((addChild s p2 c) p2).children = (s p2).children ++ [c] ∧
    ((addChild s p2 c) c).parent = some p2 ∧
    (addChild s p2 c) p1 = s p1 ∧
    c ∈ ((addChild s p2 c) p1).children ∧
    ((s c).kind ≠ ShapeKind.scene →
      ∀ fuel v, getAbsoluteX (addChild s p2 c) fuel p2 = some v →
        getAbsoluteX (addChild s p2 c) (fuel + 1) c = some (v + (s c).x)) := by
  have hA : ((addChild s p2 c) p2).children = (s p2).children ++ [c] := by
    by_cases h : p2 = c
    · subst h
      simp [addChild, updateStore]
    · simp [addChild, updateStore, h]
  have hB : ((addChild s p2 c) c).parent = some p2 := by
    simp [addChild, updateStore]
  have hC : (addChild s p2 c) p1 = s p1 := by
    simp [addChild, updateStore, h1c, h12]
  refine ⟨hA, hB, hC, by rw [hC]; exact hmem, ?_⟩
  intro hkind fuel v hv
  have hkc : ((addChild s p2 c) c).kind = (s c).kind := by
    by_cases h : c = p2 <;> simp [addChild, updateStore, h]
  have hk' : ((addChild s p2 c) c).kind ≠ ShapeKind.scene := by
    rw [hkc]; exact hkind
  have hx' : ((addChild s p2 c) c).x = (s c).x := by
    by_cases h : c = p2 <;> simp [addChild, updateStore, h]
  rw [getAbsoluteX_parent _ fuel c p2 hk' hB, hv]
  simp [hx']

/-- Witness for C9 on `reparent1`: the rectangle 3 is a child of container 1;
adding it to container 2 appends it to container 2's children, repoints its
parent link, leaves container 1 untouched (3 is in both child lists), and its
absolute x now resolves through container 2: 220 + 3. -/
theorem addChild_reparent_spec_witness :
    ((addChild reparent1 2 3) 2).children = (reparent1 2).children ++ [3] ∧
    ((addChild reparent1 2 3) 3).parent = some 2 ∧
    (addChild reparent1 2 3) 1 = reparent1 1 ∧
    (3 : NodeId) ∈ ((addChild reparent1 2 3) 1).children ∧
    getAbsoluteX (addChild reparent1 2 3) 3 3 = some (220 + (reparent1 3).x) := by
  have h := addChild_reparent_spec reparent1 1 2 3 (by decide) (by decide)
    (by decide) (by decide)
  exact ⟨h.1, h.2.1, h.2.2.1, h.2.2.2.1,
    h.2.2.2.2 (by decide) 2 220 (by decide)⟩

/-- C5 counterexample: for the one-character text node of `textA` at absolute
position (0,0), the final cumulative vertical offset of the character loop is
`20` (`paintChars` advances the offset by 20 for its single character), but
`CustomText.draw` sets the node's height to `absY + 20` *after* the loop
(src/src/index.ts:220), i.e. to `40` — the final cumulative offset plus one
extra line height — so "sets its height to the final cumulative vertical
offset" is false as stated. -/
theorem customText_draw_height_cex :
    (drawShape measureNine 3 textA 1).map (fun r => (r.1 1).height) =
      some 40 ∧
    (paintChars 0 ['a'] 0).1 = 20 ∧
    ¬ ((40 : Int) = (paintChars 0 ['a'] 0).1) :=
  ⟨by decide, by decide, by decide⟩

/-- C5 (amended): `CustomText.draw` paints each character of its string on its
own line, advancing a running vertical offset by a fixed line height (20) per
character (character `k` is painted at `absY + 20·(k+1)`), and as a side
effect sets the node's width to the measured width of the first character and
its height to the final cumulative vertical offset *plus one further line
height of 20* (i.e. `absY + 20·(length+1)`); hence after one draw pass the
node's containment bounds use the measured width/height rather than the zero
values it was constructed with. -/
theorem customText_draw_spec (measure : Option Char → Int) (s : Store)
    (fuel : Nat) (i : NodeId) (ax ay : Int)
    (hk : (s i).kind = ShapeKind.customText)
    (hch : (s i).children = [])
    (hx : getAbsoluteX s fuel i = some ax)
    (hy : getAbsoluteY s fuel i = some ay) :
    drawShape measure (fuel + 1) s i =
      some (updateStore s i
          (CustomText.updateGeom measure (s i)
            ((paintChars ax (s i).text ay).1)),
        PaintCmd.setFont (s i).font :: PaintCmd.setFillStyle (s i).fillColor ::
          (paintChars ax (s i).text ay).2) ∧
    (paintChars ax (s i).text ay).1 = ay + 20 * (s i).text.length ∧
    (paintChars ax (s i).text ay).2.length = (s i).text.length ∧
    (∀ k : Nat, ((paintChars ax (s i).text ay).2)[k]? =
      ((s i).text[k]?).map (fun ch =>
        PaintCmd.fillText ch ax (ay + 20 * ((k : Int) + 1)))) ∧
    ((updateStore s i (CustomText.updateGeom measure (s i)
        ((paintChars ax (s i).text ay).1)) i).width =
      measure (s i).text.head? ∧
     (updateStore s i (CustomText.updateGeom measure (s i)
        ((paintChars ax (s i).text ay).1)) i).height =
      ay + 20 * (s i).text.length + 20) ∧
    (∀ px py, containsPoint
        (updateStore s i (CustomText.updateGeom measure (s i)
          ((paintChars ax (s i).text ay).1))) fuel i px py =
      some (decide (ax ≤ px ∧ px ≤ ax + measure (s i).text.head? ∧
        ay ≤ py ∧ py ≤ ay + (ay + 20 * (s i).text.length + 20)))) := by
  have hwidth : (updateStore s i (CustomText.updateGeom measure (s i)
      ((paintChars ax (s i).text ay).1)) i).width =
      measure (s i).text.head? := by
    rw [updateStore_same]
    rfl
  have hheight : (updateStore s i (CustomText.updateGeom measure (s i)
      ((paintChars ax (s i).text ay).1)) i).height =
      ay + 20 * (s i).text.length + 20 := by
    rw [updateStore_same]
    show (paintChars ax (s i).text ay).1 + 20 = _
    rw [paintChars_fst]
  refine ⟨drawShape_customText measure s fuel i ax ay hk hch hx hy,
    paintChars_fst ax (s i).text ay, paintChars_length ax (s i).text ay,
    fun k => paintChars_get ax (s i).text ay k, ⟨hwidth, hheight⟩, ?_⟩
  intro px py
  have hx2 : getAbsoluteX (updateStore s i (CustomText.updateGeom measure (s i)
      ((paintChars ax (s i).text ay).1))) fuel i = some ax := by
    rw [updateStore_absX_congr s i
      (CustomText.updateGeom measure (s i) ((paintChars ax (s i).text ay).1))
      rfl rfl rfl fuel i]
    exact hx
  have hy2 : getAbsoluteY (updateStore s i (CustomText.updateGeom measure (s i)
      ((paintChars ax (s i).text ay).1))) fuel i = some ay := by
    rw [updateStore_absY_congr s i
      (CustomText.updateGeom measure (s i) ((paintChars ax (s i).text ay).1))
      rfl rfl rfl fuel i]
    exact hy
  have hk2 : ((updateStore s i (CustomText.updateGeom measure (s i)
      ((paintChars ax (s i).text ay).1))) i).kind ≠ ShapeKind.circle := by
    rw [updateStore_same]
    show (s i).kind ≠ ShapeKind.circle
    rw [hk]
    decide
  rw [containsPoint_default_eq _ fuel i px py ax ay hk2 hx2 hy2,
    hwidth, hheight]

/-- Witness for C5 on `textAB`: the text node 2 ("ab", local (10,30) inside
the container at (60,60), so absolute (70,90)) draws its two characters at
y = 110 and 130, and afterwards its width is the measured 9 and its height is
90 + 20·2 + 20 = 150 (the code adds the absolute y into the height); the
post-draw box contains (75,95). -/
theorem customText_draw_spec_witness :
    drawShape measureNine 4 textAB 2 =
      some (updateStore textAB 2
          (CustomText.updateGeom measureNine (textAB 2)
            ((paintChars 70 (textAB 2).text 90).1)),
        PaintCmd.setFont (textAB 2).font ::
          PaintCmd.setFillStyle (textAB 2).fillColor ::
          (paintChars 70 (textAB 2).text 90).2) ∧
    (paintChars 70 (textAB 2).text 90).2 =
      [PaintCmd.fillText 'a' 70 110, PaintCmd.fillText 'b' 70 130] ∧
    (updateStore textAB 2 (CustomText.updateGeom measureNine (textAB 2)
        ((paintChars 70 (textAB 2).text 90).1)) 2).width = 9 ∧
    (updateStore textAB 2 (CustomText.updateGeom measureNine (textAB 2)
        ((paintChars 70 (textAB 2).text 90).1)) 2).height = 150 ∧
    containsPoint (updateStore textAB 2
        (CustomText.updateGeom measureNine (textAB 2)
          ((paintChars 70 (textAB 2).text 90).1))) 3 2 75 95 = some true := by
  have h := customText_draw_spec measureNine textAB 3 2 70 90 (by decide)
    (by decide) (by decide) (by decide)
  exact ⟨h.1, by decide, by decide, by decide, by decide⟩

theorem updateGeom_text (measure : Option Char → Int) (nd : Node) (f : Int) :
    (CustomText.updateGeom measure nd f).text = nd.text := rfl

theorem updateGeom_font (measure : Option Char → Int) (nd : Node) (f : Int) :
    (CustomText.updateGeom measure nd f).font = nd.font := rfl

theorem updateGeom_fill (measure : Option Char → Int) (nd : Node) (f : Int) :
    (CustomText.updateGeom measure nd f).fillColor = nd.fillColor := rfl

theorem updateStore_updateStore (s : Store) (i : NodeId) (a b : Node) :
    updateStore (updateStore s i a) i b = updateStore s i b := by
  funext j
  by_cases h : j = i <;> simp [updateStore, h]

/-- C8: `CustomText.draw` is idempotent on geometry at a fixed absolute
position: redrawing the node in the state produced by a first draw yields the
very same state and the same paint commands — the recomputed width/height are
a stable fixed point (width depends only on the text, height only on the
absolute position and the text length) — even though before any draw the node
still carries the zero width/height it was constructed with. -/
theorem customText_draw_idempotent_spec (measure : Option Char → Int)
    (s : Store) (fuel : Nat) (i : NodeId) (ax ay : Int) (s1 : Store)
    (cmds : List PaintCmd)
    (hk : (s i).kind = ShapeKind.customText)
    (hch : (s i).children = [])
    (hx : getAbsoluteX s fuel i = some ax)
    (hy : getAbsoluteY s fuel i = some ay)
    (h1 : drawShape measure (fuel + 1) s i = some (s1, cmds)) :
    drawShape measure (fuel + 1) s1 i = some (s1, cmds) ∧
    (s1 i).width = measure (s i).text.head? ∧
    (s1 i).height = ay + 20 * (s i).text.length + 20 ∧
    (∀ x0 y0 t0 f0 c0, (CustomText.new x0 y0 t0 f0 c0).width = 0 ∧
      (CustomText.new x0 y0 t0 f0 c0).height = 0) := by
  rw [drawShape_customText measure s fuel i ax ay hk hch hx hy] at h1
  injection h1 with hpair
  have hs1 : updateStore s i (CustomText.updateGeom measure (s i)
      ((paintChars ax (s i).text ay).1)) = s1 := congrArg Prod.fst hpair
  have hcmds : (PaintCmd.setFont (s i).font ::
      PaintCmd.setFillStyle (s i).fillColor ::
      (paintChars ax (s i).text ay).2) = cmds := congrArg Prod.snd hpair
  subst hs1
  subst hcmds
  have hnode : (updateStore s i (CustomText.updateGeom measure (s i)
      ((paintChars ax (s i).text ay).1))) i =
      CustomText.updateGeom measure (s i) ((paintChars ax (s i).text ay).1) :=
    updateStore_same _ _ _
  refine ⟨?_, ?_, ?_, fun x0 y0 t0 f0 c0 => ⟨rfl, rfl⟩⟩
  · have hk1 : ((updateStore s i (CustomText.updateGeom measure (s i)
        ((paintChars ax (s i).text ay).1))) i).kind =
        ShapeKind.customText := by
      rw [hnode]; exact hk
    have hch1 : ((updateStore s i (CustomText.updateGeom measure (s i)
        ((paintChars ax (s i).text ay).1))) i).children = [] := by
      rw [hnode]; exact hch
    have hx1 : getAbsoluteX (updateStore s i (CustomText.updateGeom measure
        (s i) ((paintChars ax (s i).text ay).1))) fuel i = some ax := by
      rw [updateStore_absX_congr s i
        (CustomText.updateGeom measure (s i) ((paintChars ax (s i).text ay).1))
        rfl rfl rfl fuel i]
      exact hx
    have hy1 : getAbsoluteY (updateStore s i (CustomText.updateGeom measure
        (s i) ((paintChars ax (s i).text ay).1))) fuel i = some ay := by
      rw [updateStore_absY_congr s i
        (CustomText.updateGeom measure (s i) ((paintChars ax (s i).text ay).1))
        rfl rfl rfl fuel i]
      exact hy
    rw [drawShape_customText measure _ fuel i ax ay hk1 hch1 hx1 hy1]
    rw [hnode]
    simp only [updateGeom_text, updateGeom_font, updateGeom_fill]
    rw [updateGeom_idem, updateStore_updateStore]
  · rw [hnode]
    rfl
  · rw [hnode]
    show (paintChars ax (s i).text ay).1 + 20 = _
    rw [paintChars_fst]

/-- Witness for C8 on `textAB`: redrawing the text node 2 in the state left by
its first draw reproduces that state and the same commands exactly. -/
theorem customText_draw_idempotent_spec_witness :
    drawShape measureNine 4
      (updateStore textAB 2 (CustomText.updateGeom measureNine (textAB 2)
        ((paintChars 70 (textAB 2).text 90).1))) 2 =
    some (updateStore textAB 2 (CustomText.updateGeom measureNine (textAB 2)
        ((paintChars 70 (textAB 2).text 90).1)),
      PaintCmd.setFont (textAB 2).font ::
        PaintCmd.setFillStyle (textAB 2).fillColor ::
        (paintChars 70 (textAB 2).text 90).2) := by
  have h := customText_draw_idempotent_spec measureNine textAB 3 2 70 90 _ _
    (by decide) (by decide) (by decide) (by decide)
    (drawShape_customText measureNine textAB 3 2 70 90 (by decide) (by decide)
      (by decide) (by decide))
  exact h.1

theorem chainStore_big (n : Nat) : chainStore (n + 3) = defaultNode := by
  have h0 : ¬(n + 3 = 0) := by omega
  have h1 : ¬(n + 3 = 1) := by omega
  have h2 : ¬(n + 3 = 2) := by omega
  simp [chainStore, h0, h1, h2]

/-- C10 (implicit): on any heap whose parent links admit a strictly decreasing
rank `d` (a finite acyclic parent chain) the recursions of `getAbsoluteX` and
`getAbsoluteY` terminate — for every fuel at least `d i + 1` they return one
fixed defined value — and on any heap whose child lists additionally admit a
strictly decreasing rank `e` (a finite acyclic child tree), `handleEvent`
terminates: for every fuel at least `e i + B + 1` it returns one fixed defined
result.  The code itself performs no cycle check; acyclicity is the caller's
obligation, encoded here by the rank hypotheses. -/
theorem recursion_terminates_spec (s : Store) (d e : NodeId → Nat) (B : Nat)
    (hd : ∀ j p, (s j).kind ≠ ShapeKind.scene → (s j).parent = some p →
      d p < d j)
    (hB : ∀ j, d j < B)
    (he : ∀ j c, c ∈ (s j).children → e c < e j) :
    (∀ i, ∃ vx vy, ∀ fuel, d i + 1 ≤ fuel →
      getAbsoluteX s fuel i = some vx ∧ getAbsoluteY s fuel i = some vy) ∧
    (∀ i ev, ∃ r, ∀ fuel, e i + B + 1 ≤ fuel →
      handleEvent s fuel i ev = some r) := by
  constructor
  · intro i
    obtain ⟨vx, hvx⟩ := getAbsoluteX_defined s d hd (d i + 1) i (by omega)
    obtain ⟨vy, hvy⟩ := getAbsoluteY_defined s d hd (d i + 1) i (by omega)
    exact ⟨vx, vy, fun fuel hf =>
      ⟨getAbsoluteX_mono_le s (d i + 1) fuel i vx hf hvx,
       getAbsoluteY_mono_le s (d i + 1) fuel i vy hf hvy⟩⟩
  · intro i ev
    obtain ⟨r, hr⟩ := handleEvent_defined s d e B hd hB he (e i + 1) i ev
      (by omega)
    exact ⟨r, fun fuel hf =>
      handleEvent_mono_le s ev (e i + B + 1) fuel i r hf hr⟩

/-- Witness for C10 on the three-node chain `chainStore` with the ranks
`chainD` (decreasing up the parent links) and `chainE` (decreasing down the
child lists) and bound 3. -/
theorem recursion_terminates_spec_witness :
    (∀ i, ∃ vx vy, ∀ fuel, chainD i + 1 ≤ fuel →
      getAbsoluteX chainStore fuel i = some vx ∧
      getAbsoluteY chainStore fuel i = some vy) ∧
    (∀ i ev, ∃ r, ∀ fuel, chainE i + 3 + 1 ≤ fuel →
      handleEvent chainStore fuel i ev = some r) := by
  apply recursion_terminates_spec chainStore chainD chainE 3
  · intro j p hk hp
    rcases j with _ | _ | _ | n
    · exact absurd (by decide) hk
    · have h1 : (chainStore 1).parent = some 0 := by decide
      rw [h1] at hp
      injection hp with hp0
      subst hp0
      decide
    · have h2 : (chainStore 2).parent = some 1 := by decide
      rw [h2] at hp
      injection hp with hp0
      subst hp0
      decide
    · rw [chainStore_big n] at hp
      simp [defaultNode, BaseShape.init] at hp
  · intro j
    simp only [chainD]
    split
    · rename_i h
      exact Nat.lt_succ_of_le h
    · decide
  · intro j c hc
    rcases j with _ | _ | _ | n
    · have h1 : (chainStore 0).children = [1] := by decide
      rw [h1] at hc
      simp at hc
      subst hc
      decide
    · have h1 : (chainStore 1).children = [2] := by decide
      rw [h1] at hc
      simp at hc
      subst hc
      decide
    · have h1 : (chainStore 2).children = [] := by decide
      rw [h1] at hc
      simp at hc
    · rw [chainStore_big n] at hc
      simp [defaultNode, BaseShape.init] at hc
